import Mathlib

/-!
Verification of the hand-rolled Redis job queue (Express + ioredis app).

The embedding models the two Redis lists `todo` (pending) and `processing`
(in-flight) as Lean lists of job records, and the three operations of the
app as state functions:

* the POST "/" handler (`enqueueRun`): `rpush("todo", {name, id})`;
* `execute` (`executeRun`): the dispatcher tick — gate on `running < MAX_JOBS`,
  claim the head of `todo` (stamp `timestamp`/`tries`, atomic `lset` + `lmove`
  to `processing`), run the job body, and on success `lrem` the stamped copy
  from `processing`;
* `retry` (`retryRun`): the sweeper tick — inspect the head of `processing`,
  requeue it to `todo` when stale with `tries < 3`, pop it when stale with
  `tries >= 3`, otherwise leave it.

Time (`Date.now()`) and the job body's success are oracles passed as
arguments.  The `multi()...exec()` transactions are single steps, as Redis
guarantees.  Lock usage is recorded as an event list (`LockEv`) for the
dispatcher and producer, and as a held-at-return flag for the sweeper, whose
error paths (`RetryFault`) matter for lock release.
-/

namespace Queues

/-- A job record as serialized into the Redis lists: the POST handler stores
`{name, id}`; the dispatcher later adds `timestamp` (claim time, ms) and
`tries` (number of claims).  Absent fields are `none`. -/
structure Job where
  name : String
  id : Nat
  tries : Option Nat := none
  timestamp : Option Nat := none
deriving DecidableEq, Repr

/-- `const MAX_JOBS = 3` — max concurrently executing jobs per worker. -/
def MAX_JOBS : Nat := 3

/-- `10 * 60 * 1000` ms — the staleness threshold used by `retry`. -/
def STALE_MS : Int := 10 * 60 * 1000

/-- The store state visible to the queue protocol: the two Redis lists and
the worker's `running` counter. -/
structure QState where
  todo : List Job
  processing : List Job
  running : Nat
deriving DecidableEq, Repr

/-- Both lists empty, no job running. -/
def initState : QState := ⟨[], [], 0⟩

/-- Lock operations performed during one tick (`acquireLock`/`releaseLock`
on `todo-lock` and `processing-lock`). -/
inductive LockEv
  | acqTodo
  | relTodo
  | acqProc
  | relProc
deriving DecidableEq, Repr

/-- The record built by the POST "/" handler: `JSON.stringify({ name, id })` —
no `tries`, no `timestamp` field. -/
def mkJob (name : String) (id : Nat) : Job := ⟨name, id, none, none⟩

/-- The POST "/" handler: `rpush("todo", JSON.stringify({name, id}))`.
It touches no lock, so its lock-event list is empty. -/
def enqueueRun (name : String) (id : Nat) (s : QState) : QState × List LockEv :=
  ({ s with todo := s.todo ++ [mkJob name id] }, [])

/-- State part of the POST "/" handler. -/
def enqueue (name : String) (id : Nat) (s : QState) : QState :=
  (enqueueRun name id s).1

/-- The stamping done by `execute` on the parsed head record:
`copy.timestamp = Date.now()` and
`copy.tries = copy.tries ? copy.tries + 1 : 1` (a missing or zero `tries`
is falsy in JS and becomes 1). -/
def stampJob (now : Nat) (j : Job) : Job :=
  { j with
    timestamp := some now
    tries := some (match j.tries with
      | some t => if t != 0 then t + 1 else 1
      | none => 1) }

/-- `lrem(list, 1, x)`: remove the first element equal to `x`. -/
def lremFirst (l : List Job) (x : Job) : List Job :=
  match l with
  | [] => []
  | y :: ys => if y = x then ys else y :: lremFirst ys x

/-- The `execute` dispatcher tick of the app.  The `running < MAX_JOBS` gate,
the increment and the final decrement cancel within one tick, so `running`
is unchanged in the result; the fine-grained counter behaviour is modelled
separately by `DStep`.  `success` is the outcome of `timeConsumingFunction`.
Lock events record the `acquireLock`/`releaseLock` calls in program order. -/
def executeRun (now : Nat) (success : Bool) (s : QState) : QState × List LockEv :=
  if s.running < MAX_JOBS then
    match s.todo with
    | [] => (s, [.acqTodo, .relTodo])
    | j :: rest =>
      let copy := stampJob now j
      -- multi().lset("todo", 0, copy).lmove("todo", "processing", LEFT, RIGHT).exec()
      let claimed : QState := { s with todo := rest, processing := s.processing ++ [copy] }
      if success then
        ({ claimed with processing := lremFirst claimed.processing copy },
         [.acqTodo, .relTodo, .acqProc, .relProc])
      else
        (claimed, [.acqTodo, .relTodo])
  else (s, [])

/-- State part of the dispatcher tick. -/
def executeTick (now : Nat) (success : Bool) (s : QState) : QState :=
  (executeRun now success s).1

/-- `Date.now() - Number(processing.timestamp) >= 10 * 60 * 1000`.
`Number(undefined)` is NaN and every NaN comparison is false, hence the
`none` branch. -/
def isStale (now : Nat) (j : Job) : Bool :=
  match j.timestamp with
  | some ts => decide (STALE_MS ≤ (now : Int) - (ts : Int))
  | none => false

/-- `Number(processing.tries) < 3` (NaN on a missing field, hence false). -/
def triesLt3 (j : Job) : Bool :=
  match j.tries with
  | some t => decide (t < 3)
  | none => false

/-- Store operations inside `retry` that may raise: none, the initial
`lindex`, the `multi().lset.lmove.exec()` transaction, or the `lpop`. -/
inductive RetryFault
  | ok
  | atIndex
  | atTxn
  | atPop
deriving DecidableEq, Repr

/-- The `retry` sweeper tick of the app.  `acquireLock("processing")` has
succeeded on entry; the Bool in the result is whether the `processing` lock
is still held when `retry` returns.  A raising store operation jumps to the
`catch (err) { console.error(err) }` block, which does not release the lock;
a failing `multi` transaction also reverts its own writes. -/
def retryRun (now : Nat) (f : RetryFault) (s : QState) : QState × Bool :=
  if f = .atIndex then (s, true)
  else
    match s.processing with
    | [] => (s, false)
    | p :: rest =>
      if isStale now p then
        if triesLt3 p then
          if f = .atTxn then (s, true)
          else
            -- multi().lset("processing", 0, p).lmove("processing", "todo", LEFT, RIGHT).exec()
            -- the lset rewrites the head with the very record just parsed
            ({ s with processing := rest, todo := s.todo ++ [p] }, false)
        else
          if f = .atPop then (s, true)
          else ({ s with processing := rest }, false)
      else (s, false)

/-- State part of a fault-free sweeper tick. -/
def retryTick (now : Nat) (s : QState) : QState :=
  (retryRun now .ok s).1

/-- Whether some record in `l` has id `i`. -/
def idIn (i : Nat) (l : List Job) : Bool :=
  l.any fun j => j.id == i

/-- Number of records in `l` with id `i`. -/
def occ (i : Nat) (l : List Job) : Nat :=
  (l.filter fun j => j.id == i).length

/-- One observable step of the system: an enqueue by a producer, a
fault-free dispatcher tick, or a fault-free sweeper tick. -/
inductive Step : QState → QState → Prop
  | enq (s : QState) (name : String) (id : Nat) : Step s (enqueue name id s)
  | dispatch (s : QState) (now : Nat) (success : Bool) : Step s (executeTick now success s)
  | sweep (s : QState) (now : Nat) : Step s (retryTick now s)

/-- States reachable from the empty initial state. -/
inductive Reach : QState → Prop
  | init : Reach initState
  | step {s t : QState} : Reach s → Step s t → Reach t

/-- Steps in which every enqueued id is fresh (distinct submitted jobs);
dispatcher and sweeper ticks are unrestricted. -/
inductive StepF : QState → QState → Prop
  | enq (s : QState) (name : String) (id : Nat) :
      idIn id s.todo = false → idIn id s.processing = false → StepF s (enqueue name id s)
  | dispatch (s : QState) (now : Nat) (success : Bool) : StepF s (executeTick now success s)
  | sweep (s : QState) (now : Nat) : StepF s (retryTick now s)

/-- States reachable from the empty initial state with distinct job ids. -/
inductive ReachF : QState → Prop
  | init : ReachF initState
  | step {s t : QState} : ReachF s → StepF s t → ReachF t

/-! ## The dispatcher's running counter, fine-grained

`execute` in the app reads the gate `running < MAX_JOBS` and performs
`running += 1` with no intervening `await`, so on the Node event loop the
gate and the increment are one atomic step; the matching `running -= 1`
sits after the `try/catch` and therefore runs exactly once per entered
cycle, whatever the outcome.  `DState` tracks the counter (as a JS number,
so an `Int`) together with the in-progress cycles, each flagged `true`
while it is inside the job body (`timeConsumingFunction`). -/

/-- Worker-local dispatch state: the `running` counter and the dispatch
cycles that have executed `running += 1` but not yet `running -= 1`
(flag: currently inside the job body). -/
structure DState where
  running : Int
  cycles : List Bool
deriving DecidableEq, Repr

/-- Event-loop steps of the dispatcher: a tick that passes the gate and
increments, a tick that skips at the gate, a cycle entering or leaving the
job body, and a cycle running its final `running -= 1`. -/
inductive DStep : DState → DState → Prop
  | enter (s : DState) :
      s.running < (MAX_JOBS : Int) → DStep s ⟨s.running + 1, false :: s.cycles⟩
  | skip (s : DState) :
      ¬ s.running < (MAX_JOBS : Int) → DStep s s
  | beginBody (r : Int) (pre post : List Bool) :
      DStep ⟨r, pre ++ false :: post⟩ ⟨r, pre ++ true :: post⟩
  | endBody (r : Int) (pre post : List Bool) :
      DStep ⟨r, pre ++ true :: post⟩ ⟨r, pre ++ false :: post⟩
  | leave (r : Int) (b : Bool) (pre post : List Bool) :
      DStep ⟨r, pre ++ b :: post⟩ ⟨r - 1, pre ++ post⟩

/-- Dispatch states reachable from an idle worker. -/
inductive DReach : DState → Prop
  | init : DReach ⟨0, []⟩
  | step {s t : DState} : DReach s → DStep s t → DReach t

/-! ## Shape lemmas for the ticks -/

theorem executeRun_stopped {s : QState} (now : Nat) (success : Bool)
    (h : ¬ s.running < MAX_JOBS) : executeRun now success s = (s, []) := by
  simp [executeRun, h]

theorem executeRun_empty {s : QState} (now : Nat) (success : Bool)
    (h : s.running < MAX_JOBS) (h2 : s.todo = []) :
    executeRun now success s = (s, [.acqTodo, .relTodo]) := by
  simp [executeRun, h, h2]

theorem executeRun_fail {s : QState} (now : Nat) {j : Job} {rest : List Job}
    (h : s.running < MAX_JOBS) (h2 : s.todo = j :: rest) :
    executeRun now false s =
      (⟨rest, s.processing ++ [stampJob now j], s.running⟩, [.acqTodo, .relTodo]) := by
  simp [executeRun, h, h2]

theorem executeRun_succ {s : QState} (now : Nat) {j : Job} {rest : List Job}
    (h : s.running < MAX_JOBS) (h2 : s.todo = j :: rest) :
    executeRun now true s =
      (⟨rest, lremFirst (s.processing ++ [stampJob now j]) (stampJob now j), s.running⟩,
       [.acqTodo, .relTodo, .acqProc, .relProc]) := by
  simp [executeRun, h, h2]

theorem retryRun_ok_empty {s : QState} (now : Nat) (h : s.processing = []) :
    retryRun now .ok s = (s, false) := by
  simp [retryRun, h]

theorem retryRun_ok_young {s : QState} (now : Nat) {p : Job} {rest : List Job}
    (h : s.processing = p :: rest) (hy : isStale now p = false) :
    retryRun now .ok s = (s, false) := by
  simp [retryRun, h, hy]

theorem retryRun_ok_requeue {s : QState} (now : Nat) {p : Job} {rest : List Job}
    (h : s.processing = p :: rest) (hs : isStale now p = true) (ht : triesLt3 p = true) :
    retryRun now .ok s = (⟨s.todo ++ [p], rest, s.running⟩, false) := by
  simp [retryRun, h, hs, ht]

theorem retryRun_ok_discard {s : QState} (now : Nat) {p : Job} {rest : List Job}
    (h : s.processing = p :: rest) (hs : isStale now p = true) (ht : triesLt3 p = false) :
    retryRun now .ok s = (⟨s.todo, rest, s.running⟩, false) := by
  simp [retryRun, h, hs, ht]

theorem stampJob_tries (now : Nat) (j : Job) :
    (stampJob now j).tries = some (j.tries.getD 0 + 1) := by
  cases h : j.tries with
  | none => simp [stampJob, h]
  | some t =>
    cases t with
    | zero => simp [stampJob, h]
    | succ n => simp [stampJob, h]

theorem stampJob_id (now : Nat) (j : Job) : (stampJob now j).id = j.id := rfl

theorem stampJob_timestamp (now : Nat) (j : Job) :
    (stampJob now j).timestamp = some now := rfl

/-! ## Counting records by id -/

theorem occ_nil (i : Nat) : occ i [] = 0 := rfl

theorem occ_cons (i : Nat) (j : Job) (l : List Job) :
    occ i (j :: l) = (if j.id = i then 1 else 0) + occ i l := by
  by_cases h : j.id = i
  · simp [occ, h]
    omega
  · simp [occ, h]

theorem occ_append (i : Nat) (l₁ l₂ : List Job) :
    occ i (l₁ ++ l₂) = occ i l₁ + occ i l₂ := by
  simp [occ, List.filter_append]

theorem occ_singleton (i : Nat) (j : Job) :
    occ i [j] = if j.id = i then 1 else 0 := by
  by_cases h : j.id = i
  · simp [occ, h]
  · simp [occ, h]

theorem lremFirst_occ_le (i : Nat) (l : List Job) (x : Job) :
    occ i (lremFirst l x) ≤ occ i l := by
  induction l with
  | nil => simp [lremFirst]
  | cons y ys ih =>
    by_cases h : y = x
    · have he : lremFirst (y :: ys) x = ys := by simp [lremFirst, h]
      rw [he, occ_cons]
      exact Nat.le_add_left _ _
    · have he : lremFirst (y :: ys) x = y :: lremFirst ys x := by simp [lremFirst, h]
      rw [he, occ_cons, occ_cons]
      exact Nat.add_le_add_left ih _

theorem mem_lremFirst {l : List Job} {x j : Job} (h : j ∈ lremFirst l x) : j ∈ l := by
  induction l with
  | nil => simp [lremFirst] at h
  | cons y ys ih =>
    by_cases hy : y = x
    · simp only [lremFirst, if_pos hy] at h
      exact List.mem_cons_of_mem y h
    · simp only [lremFirst, if_neg hy, List.mem_cons] at h
      rcases h with h | h
      · exact h ▸ List.mem_cons_self y ys
      · exact List.mem_cons_of_mem y (ih h)

theorem occ_eq_zero_of_not_idIn {i : Nat} {l : List Job} (h : idIn i l = false) :
    occ i l = 0 := by
  induction l with
  | nil => rfl
  | cons j js ih =>
    simp only [idIn, List.any_cons, Bool.or_eq_false_iff] at h
    rw [occ_cons]
    have hid : ¬ j.id = i := by
      intro he
      simp [he] at h
    have := ih (by simpa [idIn] using h.2)
    simp [hid, this]

theorem idIn_of_occ_pos {i : Nat} {l : List Job} (h : 0 < occ i l) :
    idIn i l = true := by
  by_contra hc
  have : occ i l = 0 := occ_eq_zero_of_not_idIn (by simpa using hc)
  omega

/-! ## Mutual-exclusion invariant (distinct job ids) -/

/-- Each id occurs at most once across `todo` and `processing` together. -/
def UniqueIds (s : QState) : Prop :=
  ∀ i : Nat, occ i s.todo + occ i s.processing ≤ 1

theorem uniqueIds_enqueue {s : QState} {name : String} {id : Nat}
    (h : UniqueIds s) (h1 : idIn id s.todo = false) (h2 : idIn id s.processing = false) :
    UniqueIds (enqueue name id s) := by
  intro i
  have hshape : (enqueue name id s).todo = s.todo ++ [mkJob name id] := rfl
  have hproc : (enqueue name id s).processing = s.processing := rfl
  rw [hshape, hproc, occ_append, occ_singleton]
  by_cases hi : (mkJob name id).id = i
  · have hid : id = i := hi
    have z1 : occ i s.todo = 0 := occ_eq_zero_of_not_idIn (hid ▸ h1)
    have z2 : occ i s.processing = 0 := occ_eq_zero_of_not_idIn (hid ▸ h2)
    simp [hi, z1, z2]
  · have := h i
    simp only [if_neg hi]
    omega

theorem uniqueIds_executeTick {s : QState} (now : Nat) (success : Bool)
    (h : UniqueIds s) : UniqueIds (executeTick now success s) := by
  by_cases hr : s.running < MAX_JOBS
  · cases htd : s.todo with
    | nil =>
      intro i
      have : executeTick now success s = s := by
        simp [executeTick, executeRun_empty now success hr htd]
      rw [this]; exact h i
    | cons j rest =>
      cases success with
      | false =>
        intro i
        have hsh : executeTick now false s =
            ⟨rest, s.processing ++ [stampJob now j], s.running⟩ := by
          simp [executeTick, executeRun_fail now hr htd]
        rw [hsh]
        have := h i
        rw [htd, occ_cons] at this
        simp only [occ_append, occ_singleton, stampJob_id]
        omega
      | true =>
        intro i
        have hsh : executeTick now true s =
            ⟨rest, lremFirst (s.processing ++ [stampJob now j]) (stampJob now j),
             s.running⟩ := by
          simp [executeTick, executeRun_succ now hr htd]
        rw [hsh]
        have := h i
        rw [htd, occ_cons] at this
        have hle := lremFirst_occ_le i (s.processing ++ [stampJob now j]) (stampJob now j)
        rw [occ_append, occ_singleton, stampJob_id] at hle
        simp only []
        omega
  · intro i
    have : executeTick now success s = s := by
      simp [executeTick, executeRun_stopped now success hr]
    rw [this]; exact h i

theorem uniqueIds_retryTick {s : QState} (now : Nat)
    (h : UniqueIds s) : UniqueIds (retryTick now s) := by
  cases hp : s.processing with
  | nil =>
    intro i
    have : retryTick now s = s := by
      simp [retryTick, retryRun_ok_empty now hp]
    rw [this]; exact h i
  | cons p rest =>
    by_cases hs : isStale now p = true
    · by_cases ht : triesLt3 p = true
      · intro i
        have hsh : retryTick now s = ⟨s.todo ++ [p], rest, s.running⟩ := by
          simp [retryTick, retryRun_ok_requeue now hp hs ht]
        rw [hsh]
        have := h i
        rw [hp, occ_cons] at this
        simp only [occ_append, occ_singleton]
        omega
      · intro i
        have hsh : retryTick now s = ⟨s.todo, rest, s.running⟩ := by
          simp [retryTick,
            retryRun_ok_discard now hp hs (by simpa using ht)]
        rw [hsh]
        have := h i
        rw [hp, occ_cons] at this
        simp only []
        omega
    · intro i
      have : retryTick now s = s := by
        simp [retryTick, retryRun_ok_young now hp (by simpa using hs)]
      rw [this]; exact h i

/-! ## Bounded-tries invariant -/

/-- Every pending record has had fewer than 3 claims; every in-flight record
at most 3. -/
def TriesBounded (s : QState) : Prop :=
  (∀ j ∈ s.todo, j.tries.getD 0 < 3) ∧ (∀ j ∈ s.processing, j.tries.getD 0 ≤ 3)

theorem triesLt3_spec {p : Job} (h : triesLt3 p = true) : p.tries.getD 0 < 3 := by
  cases hp : p.tries with
  | none => simp [triesLt3, hp] at h
  | some t =>
    simp only [triesLt3, hp, decide_eq_true_eq] at h
    simpa [hp] using h

theorem triesBounded_enqueue {s : QState} (name : String) (id : Nat)
    (h : TriesBounded s) : TriesBounded (enqueue name id s) := by
  constructor
  · intro j hj
    have : j ∈ s.todo ++ [mkJob name id] := hj
    rcases List.mem_append.mp this with hm | hm
    · exact h.1 j hm
    · have : j = mkJob name id := by simpa using hm
      simp [this, mkJob]
  · intro j hj
    exact h.2 j hj

theorem triesBounded_executeTick {s : QState} (now : Nat) (success : Bool)
    (h : TriesBounded s) : TriesBounded (executeTick now success s) := by
  by_cases hr : s.running < MAX_JOBS
  · cases htd : s.todo with
    | nil =>
      have : executeTick now success s = s := by
        simp [executeTick, executeRun_empty now success hr htd]
      rw [this]; exact h
    | cons j rest =>
      have hhead : j.tries.getD 0 < 3 := h.1 j (htd ▸ List.mem_cons_self j rest)
      have hstamp : (stampJob now j).tries.getD 0 ≤ 3 := by
        rw [stampJob_tries]
        simp only [Option.getD_some]
        omega
      have htodo : ∀ k ∈ rest, k.tries.getD 0 < 3 := fun k hk =>
        h.1 k (htd ▸ List.mem_cons_of_mem j hk)
      have hproc : ∀ k ∈ s.processing ++ [stampJob now j], k.tries.getD 0 ≤ 3 := by
        intro k hk
        rcases List.mem_append.mp hk with hm | hm
        · exact h.2 k hm
        · have : k = stampJob now j := by simpa using hm
          exact this ▸ hstamp
      cases success with
      | false =>
        have hsh : executeTick now false s =
            ⟨rest, s.processing ++ [stampJob now j], s.running⟩ := by
          simp [executeTick, executeRun_fail now hr htd]
        rw [hsh]
        exact ⟨htodo, hproc⟩
      | true =>
        have hsh : executeTick now true s =
            ⟨rest, lremFirst (s.processing ++ [stampJob now j]) (stampJob now j),
             s.running⟩ := by
          simp [executeTick, executeRun_succ now hr htd]
        rw [hsh]
        exact ⟨htodo, fun k hk => hproc k (mem_lremFirst hk)⟩
  · have : executeTick now success s = s := by
      simp [executeTick, executeRun_stopped now success hr]
    rw [this]; exact h

theorem triesBounded_retryTick {s : QState} (now : Nat)
    (h : TriesBounded s) : TriesBounded (retryTick now s) := by
  cases hp : s.processing with
  | nil =>
    have : retryTick now s = s := by
      simp [retryTick, retryRun_ok_empty now hp]
    rw [this]; exact h
  | cons p rest =>
    have hrest : ∀ k ∈ rest, k.tries.getD 0 ≤ 3 := fun k hk =>
      h.2 k (hp ▸ List.mem_cons_of_mem p hk)
    by_cases hs : isStale now p = true
    · by_cases ht : triesLt3 p = true
      · have hsh : retryTick now s = ⟨s.todo ++ [p], rest, s.running⟩ := by
          simp [retryTick, retryRun_ok_requeue now hp hs ht]
        rw [hsh]
        refine ⟨?_, hrest⟩
        intro k hk
        rcases List.mem_append.mp hk with hm | hm
        · exact h.1 k hm
        · have : k = p := by simpa using hm
          exact this ▸ triesLt3_spec ht
      · have hsh : retryTick now s = ⟨s.todo, rest, s.running⟩ := by
          simp [retryTick, retryRun_ok_discard now hp hs (by simpa using ht)]
        rw [hsh]
        exact ⟨h.1, hrest⟩
    · have : retryTick now s = s := by
        simp [retryTick, retryRun_ok_young now hp (by simpa using hs)]
      rw [this]; exact h

theorem triesBounded_of_reach {s : QState} (h : Reach s) : TriesBounded s := by
  induction h with
  | init => exact ⟨by simp [initState], by simp [initState]⟩
  | step _ hst ih =>
    cases hst with
    | enq name id => exact triesBounded_enqueue name id ih
    | dispatch now success => exact triesBounded_executeTick now success ih
    | sweep now => exact triesBounded_retryTick now ih

theorem uniqueIds_of_reachF {s : QState} (h : ReachF s) : UniqueIds s := by
  induction h with
  | init =>
    intro i
    simp [initState, occ_nil]
  | step _ hst ih =>
    cases hst with
    | enq name id h1 h2 => exact uniqueIds_enqueue ih h1 h2
    | dispatch now success => exact uniqueIds_executeTick now success ih
    | sweep now => exact uniqueIds_retryTick now ih

theorem occ_pos_of_idIn {i : Nat} {l : List Job} (h : idIn i l = true) :
    0 < occ i l := by
  rcases List.any_eq_true.mp h with ⟨j, hj, hji⟩
  have hmem : j ∈ l.filter fun k => k.id == i := List.mem_filter.mpr ⟨hj, hji⟩
  exact List.length_pos.mpr (List.ne_nil_of_mem hmem)

/-! ## Running-counter invariant -/

/-- Number of dispatch cycles currently inside the job body. -/
def bodyCount (s : DState) : Nat :=
  (s.cycles.filter fun b => b).length

theorem dReach_counter {s : DState} (h : DReach s) :
    s.running = (s.cycles.length : Int) ∧ s.running ≤ (MAX_JOBS : Int) := by
  induction h with
  | init => simp
  | step _ hst ih =>
    cases hst with
    | enter s hlt =>
      refine ⟨by simp [ih.1], ?_⟩
      simp only [MAX_JOBS] at hlt ⊢
      omega
    | skip s hge => exact ih
    | beginBody r pre post =>
      refine ⟨?_, ih.2⟩
      have := ih.1
      simpa using this
    | endBody r pre post =>
      refine ⟨?_, ih.2⟩
      have := ih.1
      simpa using this
    | leave r b pre post =>
      have h1 := ih.1
      have h2 := ih.2
      simp only [List.length_append, List.length_cons] at h1
      refine ⟨?_, ?_⟩
      · simp only [List.length_append]
        push_cast at h1 ⊢
        omega
      · simp only [MAX_JOBS] at h2 ⊢
        omega

/-! ## Further helper lemmas -/

theorem lremFirst_append_self {l : List Job} {x : Job} (h : x ∉ l) :
    lremFirst (l ++ [x]) x = l := by
  induction l with
  | nil => simp [lremFirst]
  | cons y ys ih =>
    have hyx : ¬ y = x := fun he => h (he ▸ List.mem_cons_self y ys)
    have hys : x ∉ ys := fun hm => h (List.mem_cons_of_mem y hm)
    simp only [List.cons_append, lremFirst, if_neg hyx]
    rw [show ys.append [x] = ys ++ [x] from rfl, ih hys]

/-- Iterated fault-free sweeps. -/
def sweeps (nows : List Nat) (s : QState) : QState :=
  nows.foldl (fun st n => retryTick n st) s

theorem retryTick_processing_shape (now : Nat) (s : QState) :
    (retryTick now s).processing = s.processing ∨
      (retryTick now s).processing = s.processing.tail := by
  cases hp : s.processing with
  | nil =>
    left
    simp [retryTick, retryRun_ok_empty now hp, hp]
  | cons p rest =>
    by_cases hs : isStale now p = true
    · by_cases ht : triesLt3 p = true
      · right
        simp [retryTick, retryRun_ok_requeue now hp hs ht, hp]
      · right
        simp [retryTick, retryRun_ok_discard now hp hs (by simpa using ht), hp]
    · left
      simp [retryTick, retryRun_ok_young now hp (by simpa using hs), hp]

theorem retryTick_processing_length (now : Nat) (s : QState) :
    s.processing.length ≤ (retryTick now s).processing.length + 1 := by
  rcases retryTick_processing_shape now s with h | h
  · rw [h]; omega
  · rw [h]
    cases s.processing with
    | nil => simp
    | cons p rest => simp

theorem sweeps_length (nows : List Nat) :
    ∀ s : QState, s.processing.length ≤ (sweeps nows s).processing.length + nows.length := by
  induction nows with
  | nil => intro s; simp [sweeps]
  | cons n ns ih =>
    intro s
    have h1 := retryTick_processing_length n s
    have h2 := ih (retryTick n s)
    have : sweeps (n :: ns) s = sweeps ns (retryTick n s) := rfl
    rw [this, List.length_cons]
    omega

theorem retryTick_todo_length (now : Nat) (s : QState) :
    (retryTick now s).todo.length ≤ s.todo.length + 1 := by
  cases hp : s.processing with
  | nil => simp [retryTick, retryRun_ok_empty now hp]
  | cons p rest =>
    by_cases hs : isStale now p = true
    · by_cases ht : triesLt3 p = true
      · simp [retryTick, retryRun_ok_requeue now hp hs ht]
      · simp [retryTick, retryRun_ok_discard now hp hs (by simpa using ht)]
    · simp [retryTick, retryRun_ok_young now hp (by simpa using hs)]

/-! ## The claims -/

/-- Claim C1: in every reachable state of the system (with distinct job ids
submitted by producers), no job id is present in both the pending `todo`
list and the in-flight `processing` list; the atomic claim and reclaim
transactions preserve this, never leaving a duplicate or dropped record. -/
theorem mutual_exclusion_of_reachable (s : QState) (h : ReachF s) (i : Nat) :
    ¬ (idIn i s.todo = true ∧ idIn i s.processing = true) := by
  intro hc
  have hu := uniqueIds_of_reachF h i
  have p1 := occ_pos_of_idIn hc.1
  have p2 := occ_pos_of_idIn hc.2
  omega

/-- Witness for C1: after enqueueing job 1 and one failing dispatch tick,
id 1 is not in both lists. -/
theorem mutual_exclusion_example :
    ¬ (idIn 1 (executeTick 5 false (enqueue "a" 1 initState)).todo = true ∧
       idIn 1 (executeTick 5 false (enqueue "a" 1 initState)).processing = true) :=
  mutual_exclusion_of_reachable _
    (ReachF.step (ReachF.step ReachF.init (StepF.enq initState "a" 1 rfl rfl))
      (StepF.dispatch _ 5 false)) 1

/-- Claim C2 (evidence): `retry` releases the `processing` lock on the
empty-queue, too-young, requeue and discard paths, but on a path where a
store operation raises (`lindex`, the `multi` transaction, or `lpop`) the
`catch` block only logs, so the lock is still held when `retry` returns —
contradicting release on every exit path.  Evaluated at `now = 700000` on a
stale head `{name:"a", id:1, tries:1, timestamp:0}` (and variants). -/
theorem retry_lock_release_paths :
    (retryRun 700000 .ok ⟨[], [], 0⟩).2 = false ∧
    (retryRun 700000 .ok ⟨[], [⟨"a", 1, some 1, some 699999⟩], 0⟩).2 = false ∧
    (retryRun 700000 .ok ⟨[], [⟨"a", 1, some 1, some 0⟩], 0⟩).2 = false ∧
    (retryRun 700000 .ok ⟨[], [⟨"a", 1, some 3, some 0⟩], 0⟩).2 = false ∧
    (retryRun 700000 .atTxn ⟨[], [⟨"a", 1, some 1, some 0⟩], 0⟩).2 = true ∧
    (retryRun 700000 .atTxn ⟨[], [⟨"a", 1, some 1, some 0⟩], 0⟩).1 =
      ⟨[], [⟨"a", 1, some 1, some 0⟩], 0⟩ ∧
    (retryRun 700000 .atPop ⟨[], [⟨"a", 1, some 3, some 0⟩], 0⟩).2 = true ∧
    (retryRun 700000 .atIndex ⟨[], [⟨"a", 1, some 1, some 0⟩], 0⟩).2 = true := by
  decide

/-- Claim C3: in every reachable state, every pending record has fewer than
3 tries and every in-flight record at most 3 tries: the sweeper requeues
only heads with `tries < 3` and the dispatcher claims only pending records,
so no job undergoes more than `maxAttempts = 3` claim transitions. -/
theorem bounded_retries_of_reachable (s : QState) (h : Reach s) :
    (∀ j ∈ s.todo, j.tries.getD 0 < 3) ∧ (∀ j ∈ s.processing, j.tries.getD 0 ≤ 3) :=
  triesBounded_of_reach h

/-- Witness for C3: the bound after enqueueing job 1 and one failing
dispatch tick. -/
theorem bounded_retries_example :
    (∀ j ∈ (executeTick 5 false (enqueue "a" 1 initState)).todo, j.tries.getD 0 < 3) ∧
    (∀ j ∈ (executeTick 5 false (enqueue "a" 1 initState)).processing,
      j.tries.getD 0 ≤ 3) :=
  bounded_retries_of_reachable _
    (Reach.step (Reach.step Reach.init (Step.enq initState "a" 1))
      (Step.dispatch _ 5 false))

/-- Claim C4: in every reachable dispatch state of one worker, the
`running` counter equals the number of in-progress dispatch cycles, is never
negative, and is at most `MAX_JOBS = 3`; hence at most 3 job bodies execute
concurrently. -/
theorem concurrency_bound_of_reachable (s : DState) (h : DReach s) :
    s.running = (s.cycles.length : Int) ∧ 0 ≤ s.running ∧
    s.running ≤ (MAX_JOBS : Int) ∧ (bodyCount s : Int) ≤ (MAX_JOBS : Int) := by
  obtain ⟨h1, h2⟩ := dReach_counter h
  refine ⟨h1, h1 ▸ Int.ofNat_nonneg _, h2, ?_⟩
  have hb : bodyCount s ≤ s.cycles.length := List.length_filter_le _ _
  have : (bodyCount s : Int) ≤ (s.cycles.length : Int) := by exact_mod_cast hb
  omega

/-- Witness for C4: the state after one tick has entered (counter 1, one
cycle, not yet in the body). -/
theorem concurrency_bound_example :
    (⟨1, [false]⟩ : DState).running = (((⟨1, [false]⟩ : DState).cycles.length : Nat) : Int) ∧
    0 ≤ (⟨1, [false]⟩ : DState).running ∧
    (⟨1, [false]⟩ : DState).running ≤ (MAX_JOBS : Int) ∧
    (bodyCount ⟨1, [false]⟩ : Int) ≤ (MAX_JOBS : Int) :=
  concurrency_bound_of_reachable ⟨1, [false]⟩
    (DReach.step DReach.init (DStep.enter ⟨0, []⟩ (by decide)))

/-- Claim C5: the dispatcher's claim stamps the head record before the
move: `timestamp` becomes `now`, `tries` becomes its old value (0 when the
field is missing or zero) plus one, the stamped record is what lands at the
tail of `processing`, the stamp never decreases `tries`, and the sweeper's
requeue path appends only the unchanged head record to `todo`. -/
theorem dispatcher_claim_stamps (s : QState) (now : Nat) (j : Job) (rest : List Job)
    (h1 : s.running < MAX_JOBS) (h2 : s.todo = j :: rest) :
    (executeTick now false s).processing = s.processing ++ [stampJob now j] ∧
    (stampJob now j).tries = some (j.tries.getD 0 + 1) ∧
    (stampJob now j).timestamp = some now ∧
    j.tries.getD 0 ≤ (stampJob now j).tries.getD 0 ∧
    (∀ s2 : QState, ∀ p : Job, ∀ rest2 : List Job, s2.processing = p :: rest2 →
      (retryTick now s2).todo = s2.todo ∨ (retryTick now s2).todo = s2.todo ++ [p]) := by
  refine ⟨?_, stampJob_tries now j, stampJob_timestamp now j, ?_, ?_⟩
  · simp [executeTick, executeRun_fail now h1 h2]
  · rw [stampJob_tries]
    simp only [Option.getD_some]
    omega
  · intro s2 p rest2 hp
    by_cases hs : isStale now p = true
    · by_cases ht : triesLt3 p = true
      · right
        simp [retryTick, retryRun_ok_requeue now hp hs ht]
      · left
        simp [retryTick, retryRun_ok_discard now hp hs (by simpa using ht)]
    · left
      simp [retryTick, retryRun_ok_young now hp (by simpa using hs)]

/-- Witness for C5: the claim stamp on job `{name:"a", id:1}` at time 7. -/
theorem dispatcher_claim_stamps_example :
    (executeTick 7 false ⟨[⟨"a", 1, none, none⟩], [], 0⟩).processing =
      ([] : List Job) ++ [stampJob 7 ⟨"a", 1, none, none⟩] ∧
    (stampJob 7 (⟨"a", 1, none, none⟩ : Job)).tries =
      some ((⟨"a", 1, none, none⟩ : Job).tries.getD 0 + 1) ∧
    (stampJob 7 (⟨"a", 1, none, none⟩ : Job)).timestamp = some 7 ∧
    (⟨"a", 1, none, none⟩ : Job).tries.getD 0 ≤
      (stampJob 7 (⟨"a", 1, none, none⟩ : Job)).tries.getD 0 ∧
    (∀ s2 : QState, ∀ p : Job, ∀ rest2 : List Job, s2.processing = p :: rest2 →
      (retryTick 7 s2).todo = s2.todo ∨ (retryTick 7 s2).todo = s2.todo ++ [p]) :=
  dispatcher_claim_stamps ⟨[⟨"a", 1, none, none⟩], [], 0⟩ 7 ⟨"a", 1, none, none⟩ []
    (by decide) rfl

/-- Claim C6: on success the dispatcher removes the stamped record from
`processing` under the `processing` lock, leaving it in neither list; on
failure it mutates no list after the claim and never touches the
`processing` lock, so the stamped record stays discoverable in
`processing`. -/
theorem dispatcher_resolution_paths (s : QState) (now : Nat) (j : Job) (rest : List Job)
    (h1 : s.running < MAX_JOBS) (h2 : s.todo = j :: rest)
    (h3 : stampJob now j ∉ s.processing) (h4 : stampJob now j ∉ rest) :
    (executeRun now true s).1.processing = s.processing ∧
    stampJob now j ∉ (executeRun now true s).1.processing ∧
    stampJob now j ∉ (executeRun now true s).1.todo ∧
    (executeRun now true s).2 = [.acqTodo, .relTodo, .acqProc, .relProc] ∧
    (executeRun now false s).1.processing = s.processing ++ [stampJob now j] ∧
    stampJob now j ∈ (executeRun now false s).1.processing ∧
    (executeRun now false s).2 = [.acqTodo, .relTodo] := by
  have hsucc := executeRun_succ now h1 h2
  have hfail := executeRun_fail now h1 h2
  have hrem : lremFirst (s.processing ++ [stampJob now j]) (stampJob now j) =
      s.processing := lremFirst_append_self h3
  refine ⟨?_, ?_, ?_, ?_, ?_, ?_, ?_⟩
  · rw [hsucc]; exact hrem
  · rw [hsucc]; simpa [hrem] using h3
  · rw [hsucc]; simpa using h4
  · rw [hsucc]
  · rw [hfail]
  · rw [hfail]; simp
  · rw [hfail]

/-- Witness for C6: resolution of job `{name:"a", id:1}` claimed at time 7
from a singleton pending list. -/
theorem dispatcher_resolution_paths_example :
    (executeRun 7 true ⟨[⟨"a", 1, none, none⟩], [], 0⟩).1.processing = [] ∧
    stampJob 7 ⟨"a", 1, none, none⟩ ∉
      (executeRun 7 true ⟨[⟨"a", 1, none, none⟩], [], 0⟩).1.processing ∧
    stampJob 7 ⟨"a", 1, none, none⟩ ∉
      (executeRun 7 true ⟨[⟨"a", 1, none, none⟩], [], 0⟩).1.todo ∧
    (executeRun 7 true ⟨[⟨"a", 1, none, none⟩], [], 0⟩).2 =
      [.acqTodo, .relTodo, .acqProc, .relProc] ∧
    (executeRun 7 false ⟨[⟨"a", 1, none, none⟩], [], 0⟩).1.processing =
      ([] : List Job) ++ [stampJob 7 ⟨"a", 1, none, none⟩] ∧
    stampJob 7 ⟨"a", 1, none, none⟩ ∈
      (executeRun 7 false ⟨[⟨"a", 1, none, none⟩], [], 0⟩).1.processing ∧
    (executeRun 7 false ⟨[⟨"a", 1, none, none⟩], [], 0⟩).2 = [.acqTodo, .relTodo] :=
  dispatcher_resolution_paths ⟨[⟨"a", 1, none, none⟩], [], 0⟩ 7 ⟨"a", 1, none, none⟩ []
    (by decide) rfl (by simp) (by simp)

/-- Claim C7: the POST "/" handler builds a record with no `tries`
(effective attempts 0) and no `timestamp`, appends it to the tail of
`todo`, acquires no lock, and its only state change is growing the pending
list by one. -/
theorem enqueue_appends_fresh_record (name : String) (id : Nat) (s : QState) :
    (enqueueRun name id s).1.todo = s.todo ++ [mkJob name id] ∧
    (enqueueRun name id s).1.processing = s.processing ∧
    (enqueueRun name id s).1.running = s.running ∧
    (enqueueRun name id s).2 = [] ∧
    (mkJob name id).tries = none ∧
    (mkJob name id).tries.getD 0 = 0 ∧
    (mkJob name id).timestamp = none ∧
    (enqueueRun name id s).1.todo.length = s.todo.length + 1 := by
  refine ⟨rfl, rfl, rfl, rfl, rfl, rfl, rfl, ?_⟩
  simp [enqueueRun]

/-- Claim C8: a sweep whose `processing` head is stale (`now - timestamp ≥
10 min`) with `tries < 3` moves exactly that record, all fields unchanged,
to the tail of `todo`, and releases the lock. -/
theorem sweeper_requeues_stale_head (s : QState) (now : Nat) (p : Job) (rest : List Job)
    (ts t : Nat) (h : s.processing = p :: rest) (hts : p.timestamp = some ts)
    (hstale : STALE_MS ≤ (now : Int) - (ts : Int)) (htr : p.tries = some t)
    (hlt : t < 3) :
    retryRun now .ok s = (⟨s.todo ++ [p], rest, s.running⟩, false) := by
  have hs : isStale now p = true := by
    simp [isStale, hts, hstale]
  have ht : triesLt3 p = true := by
    simp [triesLt3, htr, hlt]
  exact retryRun_ok_requeue now h hs ht

/-- Witness for C8: job `{name:"a", id:1, tries:1, timestamp:0}` swept at
`now = 600000` moves unchanged to the tail of `todo`. -/
theorem sweeper_requeues_stale_head_example :
    retryRun 600000 .ok ⟨[], [⟨"a", 1, some 1, some 0⟩], 0⟩ =
      (⟨([] : List Job) ++ [⟨"a", 1, some 1, some 0⟩], [], 0⟩, false) :=
  sweeper_requeues_stale_head ⟨[], [⟨"a", 1, some 1, some 0⟩], 0⟩ 600000
    ⟨"a", 1, some 1, some 0⟩ [] 0 1 rfl rfl (by decide) rfl (by decide)

/-- Claim C9: a sweep whose `processing` head is younger than the staleness
threshold changes neither list and releases the `processing` lock before
returning. -/
theorem sweeper_skips_young_head (s : QState) (now : Nat) (p : Job) (rest : List Job)
    (ts : Nat) (h : s.processing = p :: rest) (hts : p.timestamp = some ts)
    (hy : (now : Int) - (ts : Int) < STALE_MS) :
    retryRun now .ok s = (s, false) := by
  have hs : isStale now p = false := by
    simp only [isStale, hts]
    exact decide_eq_false (not_le.mpr hy)
  exact retryRun_ok_young now h hs

/-- Witness for C9: job claimed at time 0 swept at `now = 100` is left in
place with the lock released. -/
theorem sweeper_skips_young_head_example :
    retryRun 100 .ok ⟨[], [⟨"a", 1, some 1, some 0⟩], 0⟩ =
      (⟨[], [⟨"a", 1, some 1, some 0⟩], 0⟩, false) :=
  sweeper_skips_young_head ⟨[], [⟨"a", 1, some 1, some 0⟩], 0⟩ 100
    ⟨"a", 1, some 1, some 0⟩ [] 0 rfl rfl (by decide)

/-- Claim C10: each sweep inspects only the head of `processing`: the list
is left intact or loses exactly its head, `todo` grows by at most one, and
`n` sweeps can shorten `processing` by at most `n`, so a backlog of `n`
stale jobs needs at least `n` sweeps to drain. -/
theorem sweeper_head_only (now : Nat) (s : QState) :
    ((retryTick now s).processing = s.processing ∨
      (retryTick now s).processing = s.processing.tail) ∧
    s.processing.length ≤ (retryTick now s).processing.length + 1 ∧
    (retryTick now s).todo.length ≤ s.todo.length + 1 ∧
    ∀ nows : List Nat,
      s.processing.length ≤ (sweeps nows s).processing.length + nows.length :=
  ⟨retryTick_processing_shape now s, retryTick_processing_length now s,
    retryTick_todo_length now s, fun nows => sweeps_length nows s⟩

end Queues
